import Mathlib

/-!
Verification of the two command-line tools of this repository:
the file Concatenator (`src/try/contextllm.py`) and the directory Lister
(`src/try/listllm.py`).  Both scripts are shallowly embedded below: the
filesystem is a function from path strings to file states, Python string
operations are modelled character-for-character on `String.data`, and
each Python function becomes a Lean definition with the same name.
-/

/-! Python string primitives, modelled at the character level
(Python strings index, slice and compare by characters / code points). -/

/-- Python `s.startswith(pre)`: `pre` is a character-level prefix of `s`. -/
def pyStartsWith (s pre : String) : Bool := pre.data.isPrefixOf s.data

/-- Python `s.endswith(suf)`: `suf` is a character-level suffix of `s`. -/
def pyEndsWith (s suf : String) : Bool := suf.data.reverse.isPrefixOf s.data.reverse

/-- Python slicing `s[n:]`: drop the first `n` characters. -/
def pySliceFrom (s : String) (n : Nat) : String := ⟨s.data.drop n⟩

/-- Contiguous-substring test on character lists (the helper behind
Python's `p in s` on strings). -/
def containsSub (p : List Char) : List Char → Bool
  | [] => p.isEmpty
  | c :: rest => p.isPrefixOf (c :: rest) || containsSub p rest

/-- Python `pattern in s` on strings: `pattern` occurs as a contiguous
substring of `s`. -/
def strIn (pattern s : String) : Bool := containsSub pattern.data s.data

/-- Python string repetition `c * n` for a single character `c`. -/
def pyRepeat (c : Char) (n : Nat) : String := ⟨List.replicate n c⟩

/-- Python `s.strip()`: remove leading and trailing whitespace. -/
def pyStrip (s : String) : String :=
  ⟨((s.data.dropWhile Char.isWhitespace).reverse.dropWhile Char.isWhitespace).reverse⟩

/-- Splitting a character list at newline characters; models iterating a
text file line by line (each returned chunk is one line without its
terminating newline). -/
def splitOnNl : List Char → List (List Char)
  | [] => [[]]
  | c :: rest =>
    match splitOnNl rest with
    | [] => [[c]]
    | line :: more => if c = '\n' then [] :: line :: more else (c :: line) :: more

/-- Python's `<=` on strings: lexicographic comparison by code point,
on character lists. -/
def lexLe : List Char → List Char → Bool
  | [], _ => true
  | _ :: _, [] => false
  | a :: as, b :: bs =>
    if a.toNat < b.toNat then true
    else if b.toNat < a.toNat then false
    else lexLe as bs

/-- The ordering relation used to state sortedness of results. -/
def strLe (a b : String) : Prop := lexLe a.data b.data = true

/-- Insert a string into an already sorted list (helper for `sortStrings`). -/
def insertSorted (s : String) : List String → List String
  | [] => [s]
  | t :: ts => if lexLe s.data t.data then s :: t :: ts else t :: insertSorted s ts

/-- Python's `sorted` on a list of strings (any stable comparison sort
computes this same result; insertion sort is used as the model). -/
def sortStrings : List String → List String
  | [] => []
  | s :: rest => insertSorted s (sortStrings rest)

/-! Embedding of `src/try/contextllm.py` (the Concatenator). -/

/-- State of one path in the modelled filesystem: missing, present but not
decodable as UTF-8 text, or present with decodable text content. -/
inductive PyFile where
  | absent : PyFile
  | binary : PyFile
  | text : String → PyFile
deriving DecidableEq

/-- A filesystem: each path string is mapped to its state. -/
abbrev FS := String → PyFile

/-- Python `os.path.isfile(path)` over the modelled filesystem. -/
def isfile (fs : FS) (path : String) : Bool :=
  match fs path with
  | .absent => false
  | _ => true

/-- Embeds `read_file_content`: returns the decoded content, or `none`
with the warning (binary / unsupported encoding) or error (open failed)
message printed to stderr. -/
def read_file_content (fs : FS) (file_path : String) : Option String × List String :=
  match fs file_path with
  | .text content => (some content, [])
  | .binary =>
    (none, ["Warning: " ++ file_path ++ " is not a text file or uses an unsupported encoding"])
  | .absent => (none, ["Error reading " ++ file_path])

/-- The `separator` string of `concatenate_files`: a newline, eighty `=`
characters, and a newline. -/
def separatorLine : String := "\n" ++ pyRepeat '=' 80 ++ "\n"

/-- The `header` string of `concatenate_files`: the `FILE:` line followed
by an underline of `len(file) + 6` dashes. -/
def headerFor (file : String) : String :=
  "FILE: " ++ file ++ "\n" ++ pyRepeat '-' (file.length + 6) ++ "\n"

/-- One iteration of the loop body of `concatenate_files` for a single
file: what it appends to the output and what it prints to stderr.
The content is read first; the separator and header are written only
when the read produced text, then the content, then a newline when the
content is non-empty and does not already end with one. -/
def fileChunk (fs : FS) (add_headers : Bool) (file : String) : String × List String :=
  if isfile fs file = false then
    ("", ["Warning: " ++ file ++ " does not exist, skipping"])
  else
    match read_file_content fs file with
    | (some content, msgs) =>
      ((if add_headers then separatorLine ++ headerFor file else "") ++
        content ++
        (if !content.data.isEmpty && !pyEndsWith content "\n" then "\n" else ""), msgs)
    | (none, msgs) => ("", msgs)

/-- The whole loop of `concatenate_files`: total output text and stderr
messages, accumulated over the file list in order. -/
def concatBody (fs : FS) (add_headers : Bool) : List String → String × List String
  | [] => ("", [])
  | file :: rest =>
    ((fileChunk fs add_headers file).1 ++ (concatBody fs add_headers rest).1,
     (fileChunk fs add_headers file).2 ++ (concatBody fs add_headers rest).2)

/-- Embeds `concatenate_files`: `writeOk` models whether opening/writing
the output file succeeds.  Returns the success flag, the content written
to the output file (`none` when it could not be opened), and stderr. -/
def concatenate_files (fs : FS) (writeOk : Bool) (files : List String)
    (output_file : String) (add_headers : Bool) : Bool × Option String × List String :=
  if writeOk then
    let body := concatBody fs add_headers files
    (true, some body.1, body.2)
  else
    (false, none, ["Error writing to " ++ output_file])

/-- Wildcard test of `expand_file_patterns`: the pattern contains `*`,
`?` or `[`. -/
def hasWildcard (pattern : String) : Bool :=
  pattern.data.contains '*' || pattern.data.contains '?' || pattern.data.contains '['

/-- Embeds `expand_file_patterns`: `globFn` models `glob.glob`.  Returns
the expanded file list and the warnings for wildcard patterns that
matched nothing. -/
def expand_file_patterns (globFn : String → List String) :
    List String → List String × List String
  | [] => ([], [])
  | pattern :: rest =>
    let r := expand_file_patterns globFn rest
    if hasWildcard pattern then
      let ms := globFn pattern
      if ms.isEmpty then (r.1, ("Warning: No files match pattern " ++ pattern) :: r.2)
      else (ms ++ r.1, r.2)
    else (pattern :: r.1, r.2)

/-- The deduplication loop of `main` (`seen` is the set already kept,
modelled as the list of seen paths). -/
def dedupLoop (seen : List String) : List String → List String
  | [] => []
  | f :: rest => if seen.contains f then dedupLoop seen rest else f :: dedupLoop (f :: seen) rest

/-- Embeds the `unique_files` computation of `main`: remove duplicates
while preserving order. -/
def unique_files (l : List String) : List String := dedupLoop [] l

/-- Embeds the file-list parsing loop of `main`: split the list file into
lines, strip each, drop blank lines and `#` comment lines. -/
def parseFileList (content : String) : List String :=
  ((splitOnNl content.data).map (fun line => pyStrip ⟨line⟩)).filter
    (fun s => !s.data.isEmpty && !pyStartsWith s "#")

/-- Command-line arguments of the Concatenator. -/
structure ConcatArgs where
  files : List String
  output : String
  no_headers : Bool
  file_list : Option String

/-- Embeds `main` of `contextllm.py` from the point where the optional
list file has already been read into `fromList`: glob expansion of the
positional arguments, the empty-input check, deduplication, existence
filtering, the no-valid-files check, and the call to `concatenate_files`.
Returns the exit code, the content written to the output file (`none`
when the output file was never opened), and the stderr messages. -/
def mainAfterList (fs : FS) (globFn : String → List String) (writeOk : Bool)
    (args : ConcatArgs) (fromList : List String) : Nat × Option String × List String :=
  let e := expand_file_patterns globFn args.files
  let files_to_concatenate := fromList ++ e.1
  if files_to_concatenate.isEmpty then
    (1, none, e.2 ++ ["Error: No files specified."])
  else
    let uniq := unique_files files_to_concatenate
    let existing_files := uniq.filter (fun f => isfile fs f)
    let warns := (uniq.filter (fun f => !isfile fs f)).map
      (fun f => "Warning: " ++ f ++ " does not exist, skipping")
    if existing_files.isEmpty then
      (1, none, e.2 ++ warns ++ ["Error: No valid files to concatenate."])
    else
      let r := concatenate_files fs writeOk existing_files args.output (!args.no_headers)
      if r.1 then (0, r.2.1, e.2 ++ warns ++ r.2.2)
      else (1, r.2.1, e.2 ++ warns ++ r.2.2 ++ ["Failed to create output file"])

/-- Embeds `main` of `contextllm.py`: first the optional list file is
read and parsed (a missing list file or one that fails to decode exits
with status 1 before any output is produced), then `mainAfterList`. -/
def mainConcat (fs : FS) (globFn : String → List String) (writeOk : Bool)
    (args : ConcatArgs) : Nat × Option String × List String :=
  match args.file_list with
  | none => mainAfterList fs globFn writeOk args []
  | some fl =>
    match fs fl with
    | .text content => mainAfterList fs globFn writeOk args (parseFileList content)
    | .absent => (1, none, ["Error: File list " ++ fl ++ " not found"])
    | .binary => (1, none, ["Error reading file list from " ++ fl])

/-! Embedding of `src/try/listllm.py` (the Lister). -/

mutual
/-- A directory tree: a node holds the file names of the directory and
its subdirectories (name and subtree), mirroring what `os.walk` visits. -/
inductive FTree where
  | node : List String → FForest → FTree
/-- The subdirectories of a directory, in `os.walk` order. -/
inductive FForest where
  | nil : FForest
  | cons : String → FTree → FForest → FForest
end

/-- How `os.path.relpath(root, directory)` evolves along the walk: it is
`"."` at the traversal root, the directory name one level down, and
slash-joined names below that. -/
def relJoin (rel d : String) : String := if rel = "." then d else rel ++ "/" ++ d

/-- The `rel_path` computation of `list_files`:
`os.path.join(os.path.relpath(root, directory), file)` (which is
`rel ++ "/" ++ file`), then the leading `"./"` is stripped, else a bare
`"."` is replaced by the file name. -/
def relPathOf (rel file : String) : String :=
  let rel_path := rel ++ "/" ++ file
  if pyStartsWith rel_path "./" then pySliceFrom rel_path 2
  else if rel_path = "." then file
  else rel_path

/-- The exclusion test of `list_files`:
`any(pattern in file for pattern in exclude_patterns)`, applied to the
base name of the file. -/
def excludedName (exclude_patterns : List String) (file : String) : Bool :=
  exclude_patterns.any (fun pattern => strIn pattern file)

mutual
/-- The recursive branch of `list_files`, as the `os.walk` loop: at each
node the node's files are filtered (hidden test, exclusion test) and
given relative paths, then the subdirectories are walked in order —
except those pruned by `dirs[:] = [d for d in dirs if not d.startswith(".")]`
when hidden entries are not included, which are never descended into. -/
def walkTree (include_hidden : Bool) (exclude_patterns : List String) (rel : String) :
    FTree → List String
  | .node files dirs =>
    files.filterMap (fun file =>
      if !include_hidden && pyStartsWith file "." then none
      else if excludedName exclude_patterns file then none
      else some (relPathOf rel file))
    ++ walkForest include_hidden exclude_patterns rel dirs
/-- Walk of the subdirectory list: a pruned (hidden) subdirectory
contributes nothing, any other subdirectory is walked with its name
joined onto the relative path. -/
def walkForest (include_hidden : Bool) (exclude_patterns : List String) (rel : String) :
    FForest → List String
  | .nil => []
  | .cons d t rest =>
    (if !include_hidden && pyStartsWith d "." then []
     else walkTree include_hidden exclude_patterns (relJoin rel d) t)
    ++ walkForest include_hidden exclude_patterns rel rest
end

/-- Embeds `list_files` with `recursive=True`: walk from the root (where
`os.path.relpath` yields `"."`), then sort the collected paths once. -/
def list_files_recursive (t : FTree) (exclude_patterns : List String)
    (include_hidden : Bool) : List String :=
  sortStrings (walkTree include_hidden exclude_patterns "." t)

/-- One entry returned by `os.listdir`: a file or a subdirectory. -/
inductive DirEntry where
  | fileEntry : String → DirEntry
  | dirEntry : String → DirEntry
deriving DecidableEq

/-- The collection loop of the non-recursive branch of `list_files`:
skip directories, skip hidden entries (unless included), skip excluded
names, keep the bare name. -/
def listNonRecursive (entries : List DirEntry) (exclude_patterns : List String)
    (include_hidden : Bool) : List String :=
  entries.filterMap (fun e =>
    match e with
    | .dirEntry _ => none
    | .fileEntry item =>
      if !include_hidden && pyStartsWith item "." then none
      else if excludedName exclude_patterns item then none
      else some item)

/-- Embeds `list_files` with `recursive=False`: collect direct children,
then sort once. -/
def list_files_nonrecursive (entries : List DirEntry) (exclude_patterns : List String)
    (include_hidden : Bool) : List String :=
  sortStrings (listNonRecursive entries exclude_patterns include_hidden)

/-- Embeds `write_listed_files_to_file`: on success the file receives one
line per path; on an open/write failure the error is printed to stderr
and the process exits with status 1 (modelled as the `Except.error`
carrying the stderr line and the exit status). -/
def write_listed_files_to_file (writeOk : Bool) (files : List String)
    (output_file : String) : Except (List String × Nat) String :=
  if writeOk then .ok (files.foldl (fun acc file_name => acc ++ file_name ++ "\n") "")
  else .error (["Error writing to " ++ output_file], 1)

/-- Embeds `main` of `listllm.py`: directory check, listing (recursive or
not), empty-result early exit with status 0, and the optional write to
an output file.  Returns the exit code, the stderr messages, and the
content written to the output file (`none` when nothing was written). -/
def mainLister (dirOk writeOk : Bool) (t : FTree) (entries : List DirEntry)
    (recursive include_hidden : Bool) (exclude : List String)
    (output : Option String) : Nat × List String × Option String :=
  if !dirOk then (1, ["Error: Directory does not exist"], none)
  else
    let files := if recursive then list_files_recursive t exclude include_hidden
                 else list_files_nonrecursive entries exclude include_hidden
    if files.isEmpty then (0, [], none)
    else
      match output with
      | some out =>
        match write_listed_files_to_file writeOk files out with
        | .ok content => (0, [], some content)
        | .error e => (e.2, e.1, none)
      | none => (0, [], none)

/-! Specification-side definitions, used to compare the embedded code
against the spec's words (refinement claims C5 and C6). -/

/-- Written from the spec's words for C6: remove repeated path strings,
keeping the first occurrence's position and the relative order of the
rest (keep the head, delete its later duplicates, recurse). -/
def firstOccurrences : List String → List String
  | [] => []
  | f :: rest => f :: firstOccurrences (rest.filter (fun g => g != f))
termination_by l => l.length
decreasing_by
  simp only [List.length_cons]
  exact Nat.lt_succ_of_le (List.length_filter_le _ _)

mutual
/-- Written from the spec's words for C5: every non-hidden file at every
depth, hidden subdirectories contributing zero entries, each path
relative to the root (`base = ""` at the root, so a root file is its
bare name). -/
def specFilesTree (base : String) : FTree → List String
  | .node files dirs =>
    (files.filter (fun f => !pyStartsWith f ".")).map
      (fun f => if base = "" then f else base ++ "/" ++ f)
    ++ specFilesForest base dirs
def specFilesForest (base : String) : FForest → List String
  | .nil => []
  | .cons d t rest =>
    (if pyStartsWith d "." then []
     else specFilesTree (if base = "" then d else base ++ "/" ++ d) t)
    ++ specFilesForest base rest
end

mutual
/-- Well-formed directory trees: every subdirectory name is non-empty
(as on any real filesystem). -/
def wfTree : FTree → Bool
  | .node _ dirs => wfForest dirs
/-- Well-formedness of a subdirectory list. -/
def wfForest : FForest → Bool
  | .nil => true
  | .cons d t rest => !d.data.isEmpty && wfTree t && wfForest rest
end

/-! Lemmas about the sorting model. -/

theorem lexLe_total (a b : List Char) : lexLe a b = true ∨ lexLe b a = true := by
  induction a generalizing b with
  | nil => left; rfl
  | cons x xs ih =>
    cases b with
    | nil => right; rfl
    | cons y ys =>
      rcases Nat.lt_trichotomy x.toNat y.toNat with h | h | h
      · left; simp [lexLe, h]
      · have h2 : ¬ x.toNat < y.toNat := by omega
        have h3 : ¬ y.toNat < x.toNat := by omega
        rcases ih ys with hh | hh
        · left; simp [lexLe, h2, h3, hh]
        · right; simp [lexLe, h2, h3, hh]
      · right; simp [lexLe, h]

theorem lexLe_trans {a b c : List Char} (h1 : lexLe a b = true) (h2 : lexLe b c = true) :
    lexLe a c = true := by
  induction a generalizing b c with
  | nil => rfl
  | cons x xs ih =>
    cases b with
    | nil => simp [lexLe] at h1
    | cons y ys =>
      cases c with
      | nil => simp [lexLe] at h2
      | cons z zs =>
        by_cases hxy : x.toNat < y.toNat
        · by_cases hyz : y.toNat < z.toNat
          · have : x.toNat < z.toNat := by omega
            simp [lexLe, this]
          · by_cases hzy : z.toNat < y.toNat
            · simp [lexLe, hyz, hzy] at h2
            · have : x.toNat < z.toNat := by omega
              simp [lexLe, this]
        · by_cases hyx : y.toNat < x.toNat
          · simp [lexLe, hxy, hyx] at h1
          · have hxyeq : x.toNat = y.toNat := by omega
            by_cases hyz : y.toNat < z.toNat
            · have : x.toNat < z.toNat := by omega
              simp [lexLe, this]
            · by_cases hzy : z.toNat < y.toNat
              · simp [lexLe, hyz, hzy] at h2
              · have g1 : ¬ x.toNat < z.toNat := by omega
                have g2 : ¬ z.toNat < x.toNat := by omega
                simp only [lexLe, hxy, hyx, if_neg, if_false] at h1
                simp only [lexLe, hyz, hzy, if_neg, if_false] at h2
                simp only [lexLe, g1, g2, if_neg, if_false]
                exact ih h1 h2

theorem mem_insertSorted {y x : String} {l : List String} :
    y ∈ insertSorted x l ↔ y = x ∨ y ∈ l := by
  induction l with
  | nil => simp [insertSorted]
  | cons t ts ih =>
    by_cases h : lexLe x.data t.data = true
    · simp [insertSorted, h]
    · simp only [insertSorted, h, if_false, Bool.false_eq_true, if_neg, List.mem_cons, ih]
      tauto

theorem perm_insertSorted (x : String) (l : List String) :
    (insertSorted x l).Perm (x :: l) := by
  induction l with
  | nil => exact List.Perm.refl _
  | cons t ts ih =>
    by_cases h : lexLe x.data t.data = true
    · simp [insertSorted, h]
    · simp only [insertSorted, h, Bool.false_eq_true, if_neg, if_false]
      exact (ih.cons t).trans (List.Perm.swap x t ts)

theorem perm_sortStrings (l : List String) : (sortStrings l).Perm l := by
  induction l with
  | nil => exact List.Perm.refl _
  | cons s rest ih =>
    exact (perm_insertSorted s (sortStrings rest)).trans (ih.cons s)

theorem sorted_insertSorted {l : List String} (x : String)
    (h : List.Sorted strLe l) : List.Sorted strLe (insertSorted x l) := by
  induction l with
  | nil => simp [insertSorted]
  | cons t ts ih =>
    rw [List.sorted_cons] at h
    by_cases hle : lexLe x.data t.data = true
    · simp only [insertSorted, hle, if_true]
      rw [List.sorted_cons]
      refine ⟨?_, List.sorted_cons.mpr h⟩
      intro b hb
      rcases List.mem_cons.mp hb with rfl | hbts
      · exact hle
      · exact lexLe_trans hle (h.1 b hbts)
    · have htx : lexLe t.data x.data = true := (lexLe_total x.data t.data).resolve_left hle
      simp only [insertSorted, hle, Bool.false_eq_true, if_neg, if_false]
      rw [List.sorted_cons]
      refine ⟨?_, ih h.2⟩
      intro b hb
      rcases mem_insertSorted.mp hb with rfl | hbts
      · exact htx
      · exact h.1 b hbts

theorem sorted_sortStrings (l : List String) : List.Sorted strLe (sortStrings l) := by
  induction l with
  | nil => simp [sortStrings]
  | cons s rest ih => exact sorted_insertSorted s ih

/-! Lemmas about the substring test. -/

theorem containsSub_iff {p l : List Char} : containsSub p l = true ↔ p <:+: l := by
  induction l with
  | nil =>
    simp only [containsSub, List.isEmpty_iff]
    constructor
    · intro h; simp [h]
    · intro h; exact List.eq_nil_of_infix_nil h
  | cons c rest ih =>
    simp only [containsSub, Bool.or_eq_true, ih, List.infix_cons_iff,
       List.isPrefixOf_iff_prefix]

/-! Lemmas about the deduplication loop. -/

theorem dedupLoop_sublist (seen l : List String) : (dedupLoop seen l).Sublist l := by
  induction l generalizing seen with
  | nil => simp [dedupLoop]
  | cons f rest ih =>
    by_cases h : seen.contains f = true
    · simp only [dedupLoop, h, if_true]
      exact (ih seen).cons f
    · simp only [dedupLoop, h, Bool.false_eq_true, if_neg, if_false]
      exact (ih (f :: seen)).cons₂ f

theorem mem_dedupLoop {a : String} {seen l : List String} :
    a ∈ dedupLoop seen l ↔ a ∈ l ∧ seen.contains a = false := by
  induction l generalizing seen with
  | nil => simp [dedupLoop]
  | cons f rest ih =>
    by_cases h : seen.contains f = true
    · rw [dedupLoop, if_pos h]
      rw [ih]
      constructor
      · rintro ⟨ha, hc⟩; exact ⟨List.mem_cons_of_mem f ha, hc⟩
      · rintro ⟨ha, hc⟩
        rcases List.mem_cons.mp ha with rfl | ha2
        · rw [h] at hc; cases hc
        · exact ⟨ha2, hc⟩
    · have hf : seen.contains f = false := by
        cases hh : seen.contains f
        · rfl
        · exact absurd hh h
      rw [dedupLoop, if_neg h]
      constructor
      · intro hmem
        rcases List.mem_cons.mp hmem with rfl | hmem2
        · exact ⟨List.mem_cons_self a rest, hf⟩
        · obtain ⟨ha, hc⟩ := ih.mp hmem2
          rw [List.contains_cons, Bool.or_eq_false_iff] at hc
          exact ⟨List.mem_cons_of_mem f ha, hc.2⟩
      · rintro ⟨ha, hc⟩
        by_cases hafeq : a = f
        · exact hafeq ▸ List.mem_cons_self a _
        · rcases List.mem_cons.mp ha with rfl | ha2
          · exact absurd rfl hafeq
          · refine List.mem_cons_of_mem f (ih.mpr ⟨ha2, ?_⟩)
            rw [List.contains_cons, Bool.or_eq_false_iff]
            exact ⟨by simp [hafeq], hc⟩

theorem nodup_dedupLoop (seen l : List String) : (dedupLoop seen l).Nodup := by
  induction l generalizing seen with
  | nil => simp [dedupLoop]
  | cons f rest ih =>
    by_cases h : seen.contains f = true
    · rw [dedupLoop, if_pos h]; exact ih seen
    · rw [dedupLoop, if_neg h]
      rw [List.nodup_cons]
      refine ⟨?_, ih (f :: seen)⟩
      intro hmem
      obtain ⟨-, hc⟩ := mem_dedupLoop.mp hmem
      rw [List.contains_cons, Bool.or_eq_false_iff] at hc
      simp at hc

theorem dedupLoop_eq_firstOccurrences (l : List String) :
    ∀ seen, dedupLoop seen l = firstOccurrences (l.filter (fun g => !seen.contains g)) := by
  induction l with
  | nil => intro seen; simp [dedupLoop, firstOccurrences]
  | cons f rest ih =>
    intro seen
    by_cases h : seen.contains f = true
    · rw [dedupLoop, if_pos h, List.filter_cons]
      simp only [h, Bool.not_true, Bool.false_eq_true, if_neg, if_false]
      exact ih seen
    · have hf : seen.contains f = false := by
        cases hh : seen.contains f
        · rfl
        · exact absurd hh h
      rw [dedupLoop, if_neg h, List.filter_cons]
      simp only [hf, Bool.not_false, if_true]
      rw [firstOccurrences, ih (f :: seen)]
      congr 1
      rw [List.filter_filter]
      have hfe : List.filter (fun g => !(f :: seen).contains g) rest
          = List.filter (fun a => a != f && !seen.contains a) rest := by
        apply List.filter_congr
        intro g _
        simp only [List.contains_cons, Bool.not_or, bne]
      rw [hfe]

theorem unique_files_eq_firstOccurrences (l : List String) :
    unique_files l = firstOccurrences l := by
  have h := dedupLoop_eq_firstOccurrences l []
  rw [unique_files, h]
  congr 1
  rw [List.filter_congr (fun a _ => by simp : ∀ a ∈ l, (!List.contains [] a) = true)]
  exact List.filter_true l

/-! Lemmas about relative-path computation (claim C5). -/

theorem isPrefixOf_cons_head {c : Char} {cs l : List Char}
    (h : (c :: cs).isPrefixOf l = true) : l.head? = some c := by
  rw [ List.isPrefixOf_iff_prefix] at h
  obtain ⟨t, ht⟩ := h
  rw [← ht]
  rfl

theorem pyStartsWith_dot_head {s : String} (h : pyStartsWith s "." = false) :
    s.data.head? ≠ some '.' := by
  intro hh
  cases hs : s.data with
  | nil => rw [hs] at hh; cases hh
  | cons c cs =>
    rw [hs] at hh
    have hc : c = '.' := by injection hh
    have : pyStartsWith s "." = true := by
      rw [pyStartsWith, show ("." : String).data = ['.'] from rfl, hs, hc]
      rw [ List.isPrefixOf_iff_prefix]
      exact ⟨cs, rfl⟩
    rw [h] at this
    cases this

theorem ne_dot_of_head {s : String} (h : s.data.head? ≠ some '.') : s ≠ "." := by
  intro he
  apply h
  rw [he]
  rfl

theorem ne_empty_of_data {s : String} (h : s.data ≠ []) : s ≠ "" := by
  intro he
  apply h
  rw [he]

/-- The traversal invariant for the relative path carried along the walk:
at the root it is `"."`; below the root it is a non-empty path whose
first character is not `'.'` (hidden directories having been pruned). -/
def goodRel (rel : String) : Prop :=
  rel = "." ∨ (rel.data ≠ [] ∧ rel.data.head? ≠ some '.')

/-- Conversion between the walk's root marker `"."` and the spec view's
empty base prefix. -/
def specMark (rel : String) : String := if rel = "." then "" else rel

theorem specMark_dot : specMark "." = "" := rfl

theorem specMark_of_head {s : String} (h : s.data.head? ≠ some '.') : specMark s = s := by
  rw [specMark, if_neg (ne_dot_of_head h)]

theorem data_append3 (a b c : String) :
    (a ++ b ++ c).data = a.data ++ b.data ++ c.data := by
  rw [String.data_append, String.data_append]

theorem relPathOf_dot (f : String) : relPathOf "." f = f := by
  have hdata : ("." ++ "/" ++ f : String).data = '.' :: '/' :: f.data := by
    rw [data_append3]
    rfl
  rw [relPathOf]
  have hsw : pyStartsWith ("." ++ "/" ++ f) "./" = true := by
    rw [pyStartsWith, hdata, show ("./" : String).data = ['.', '/'] from rfl]
    rw [ List.isPrefixOf_iff_prefix]
    exact ⟨f.data, rfl⟩
  rw [hsw]
  simp only [if_true]
  rw [pySliceFrom, hdata]
  rfl

theorem relPathOf_deep (rel f : String) (h1 : rel.data ≠ [])
    (h2 : rel.data.head? ≠ some '.') : relPathOf rel f = rel ++ "/" ++ f := by
  have hdata : (rel ++ "/" ++ f : String).data = rel.data ++ '/' :: f.data := by
    rw [data_append3, List.append_assoc]
    rfl
  have hsw : pyStartsWith (rel ++ "/" ++ f) "./" = false := by
    cases hb : pyStartsWith (rel ++ "/" ++ f) "./"
    · rfl
    · exfalso
      rw [pyStartsWith, show ("./" : String).data = ['.', '/'] from rfl] at hb
      have hh := isPrefixOf_cons_head hb
      rw [hdata] at hh
      cases hd : rel.data with
      | nil => exact h1 hd
      | cons c cs =>
        rw [hd] at hh
        apply h2
        rw [hd]
        exact hh
  have hne : (rel ++ "/" ++ f : String) ≠ "." := by
    intro he
    have hd := congrArg String.data he
    rw [hdata, show ("." : String).data = ['.'] from rfl] at hd
    have hlen := congrArg List.length hd
    rw [List.length_append] at hlen
    cases hdd : rel.data with
    | nil => exact h1 hdd
    | cons c cs =>
      rw [hdd] at hlen
      simp at hlen
      omega
  rw [relPathOf]
  rw [hsw]
  simp only [Bool.false_eq_true, if_false]
  rw [if_neg hne]

theorem goodRel_child {rel d : String} (hrel : goodRel rel) (hd1 : d.data ≠ [])
    (hd2 : d.data.head? ≠ some '.') : goodRel (relJoin rel d) := by
  rcases hrel with rfl | ⟨h1, h2⟩
  · rw [relJoin, if_pos rfl]
    exact Or.inr ⟨hd1, hd2⟩
  · have hrne : rel ≠ "." := ne_dot_of_head h2
    rw [relJoin, if_neg hrne]
    refine Or.inr ⟨?_, ?_⟩
    · rw [data_append3]
      intro hcontra
      rcases List.append_eq_nil.mp hcontra with ⟨hl, -⟩
      rcases List.append_eq_nil.mp hl with ⟨hl2, -⟩
      exact h1 hl2
    · rw [data_append3]
      cases hdd : rel.data with
      | nil => exact absurd hdd h1
      | cons c cs =>
        rw [hdd] at h2
        simpa using h2

theorem head_of_concat {rel : String} {l : List Char} (h1 : rel.data ≠ [])
    (h2 : rel.data.head? ≠ some '.') : (rel.data ++ l).head? ≠ some '.' := by
  cases hdd : rel.data with
  | nil => exact absurd hdd h1
  | cons c cs =>
    rw [hdd] at h2
    simpa using h2

theorem pyStartsWith_dotSlash_of_head {p : String} (h : p.data.head? ≠ some '.') :
    pyStartsWith p "./" = false := by
  cases hb : pyStartsWith p "./"
  · rfl
  · exfalso
    rw [pyStartsWith, show ("./" : String).data = ['.', '/'] from rfl] at hb
    exact h (isPrefixOf_cons_head hb)

theorem filterMap_survivors (files : List String) (g : String → String) :
    (files.filterMap fun file =>
       if pyStartsWith file "." then none
       else if excludedName [] file then none
       else some (g file))
    = (files.filter (fun f => !pyStartsWith f ".")).map g := by
  induction files with
  | nil => rfl
  | cons f fs ih =>
    rw [List.filterMap_cons, List.filter_cons]
    have hexc : ¬ excludedName [] f = true := by
      intro hc
      cases hc
    by_cases h : pyStartsWith f "." = true
    · rw [if_pos h, h]
      simp only [Bool.not_true, Bool.false_eq_true, if_false]
      exact ih
    · have hf : pyStartsWith f "." = false := by simpa using h
      rw [if_neg h, if_neg hexc, hf]
      simp only [Bool.not_false, if_true, List.map_cons]
      rw [ih]

mutual
/-- With hidden entries excluded and no exclusion patterns, the walk of a
well-formed tree computes exactly the spec-side collection. -/
theorem walkTree_eq_spec (t : FTree) (rel : String) (hwf : wfTree t = true)
    (hrel : goodRel rel) :
    walkTree false [] rel t = specFilesTree (specMark rel) t := by
  cases t with
  | node files dirs =>
    rw [walkTree, specFilesTree]
    simp only [Bool.not_false, Bool.true_and]
    rw [filterMap_survivors files (relPathOf rel)]
    congr 1
    · apply List.map_congr_left
      intro f hf
      rcases hrel with rfl | ⟨h1, h2⟩
      · rw [specMark_dot, if_pos rfl, relPathOf_dot]
      · rw [specMark_of_head h2, relPathOf_deep rel f h1 h2, if_neg (ne_empty_of_data h1)]
    · have hwf2 : wfForest dirs = true := by rw [wfTree] at hwf; exact hwf
      exact walkForest_eq_spec dirs rel hwf2 hrel

/-- Forest version of `walkTree_eq_spec`. -/
theorem walkForest_eq_spec (F : FForest) (rel : String) (hwf : wfForest F = true)
    (hrel : goodRel rel) :
    walkForest false [] rel F = specFilesForest (specMark rel) F := by
  cases F with
  | nil => rfl
  | cons d t rest =>
    rw [walkForest, specFilesForest]
    rw [wfForest] at hwf
    simp only [Bool.and_eq_true] at hwf
    obtain ⟨⟨hde, hwt⟩, hwr⟩ := hwf
    have hd1 : d.data ≠ [] := by
      intro hc
      rw [hc] at hde
      simp at hde
    simp only [Bool.not_false, Bool.true_and]
    by_cases h : pyStartsWith d "." = true
    · rw [if_pos h, if_pos h]
      simp only [List.nil_append]
      exact walkForest_eq_spec rest rel hwr hrel
    · have hdf : pyStartsWith d "." = false := by simpa using h
      have hd2 : d.data.head? ≠ some '.' := pyStartsWith_dot_head hdf
      rw [if_neg h, if_neg h]
      congr 1
      · rw [walkTree_eq_spec t (relJoin rel d) hwt (goodRel_child hrel hd1 hd2)]
        congr 1
        rcases hrel with rfl | ⟨g1, g2⟩
        · rw [specMark_dot, relJoin, if_pos rfl, if_pos rfl, specMark_of_head hd2]
        · rw [specMark_of_head g2, relJoin, if_neg (ne_dot_of_head g2),
            if_neg (ne_empty_of_data g1)]
          apply specMark_of_head
          rw [data_append3, List.append_assoc]
          exact head_of_concat g1 g2
      · exact walkForest_eq_spec rest rel hwr hrel
end

mutual
/-- Every path produced by the walk (hidden entries excluded) starts with
a character other than `'.'`; in particular no path starts with `"./"`. -/
theorem walkTree_head_ne (t : FTree) (rel : String) (hwf : wfTree t = true)
    (hrel : goodRel rel) :
    ∀ p ∈ walkTree false [] rel t, p.data.head? ≠ some '.' := by
  cases t with
  | node files dirs =>
    intro p hp
    rw [walkTree] at hp
    simp only [Bool.not_false, Bool.true_and] at hp
    rcases List.mem_append.mp hp with hp1 | hp2
    · obtain ⟨f, hf, hsome⟩ := List.mem_filterMap.mp hp1
      by_cases hhid : pyStartsWith f "." = true
      · rw [if_pos hhid] at hsome; cases hsome
      · have hff : pyStartsWith f "." = false := by simpa using hhid
        rw [if_neg hhid] at hsome
        by_cases hexc : excludedName [] f = true
        · rw [if_pos hexc] at hsome; cases hsome
        · rw [if_neg hexc] at hsome
          have hpf : relPathOf rel f = p := by injection hsome
          rcases hrel with rfl | ⟨h1, h2⟩
          · rw [relPathOf_dot] at hpf
            rw [← hpf]
            exact pyStartsWith_dot_head hff
          · rw [relPathOf_deep rel f h1 h2] at hpf
            rw [← hpf, data_append3, List.append_assoc]
            exact head_of_concat h1 h2
    · have hwf2 : wfForest dirs = true := by rw [wfTree] at hwf; exact hwf
      exact walkForest_head_ne dirs rel hwf2 hrel p hp2

/-- Forest version of `walkTree_head_ne`. -/
theorem walkForest_head_ne (F : FForest) (rel : String) (hwf : wfForest F = true)
    (hrel : goodRel rel) :
    ∀ p ∈ walkForest false [] rel F, p.data.head? ≠ some '.' := by
  cases F with
  | nil => intro p hp; simp [walkForest] at hp
  | cons d t rest =>
    intro p hp
    rw [walkForest] at hp
    simp only [Bool.not_false, Bool.true_and] at hp
    rw [wfForest] at hwf
    simp only [Bool.and_eq_true] at hwf
    obtain ⟨⟨hde, hwt⟩, hwr⟩ := hwf
    have hd1 : d.data ≠ [] := by
      intro hc
      rw [hc] at hde
      simp at hde
    rcases List.mem_append.mp hp with hp1 | hp2
    · by_cases h : pyStartsWith d "." = true
      · rw [if_pos h] at hp1; simp at hp1
      · have hdf : pyStartsWith d "." = false := by simpa using h
        have hd2 : d.data.head? ≠ some '.' := pyStartsWith_dot_head hdf
        rw [if_neg h] at hp1
        exact walkTree_head_ne t (relJoin rel d) hwt (goodRel_child hrel hd1 hd2) p hp1
    · exact walkForest_head_ne rest rel hwr hrel p hp2
end

/-! Helper lemmas for the claim theorems. -/

theorem fileChunk_binary (fs : FS) (add_headers : Bool) (f : String)
    (h : fs f = PyFile.binary) :
    fileChunk fs add_headers f
      = ("", ["Warning: " ++ f ++ " is not a text file or uses an unsupported encoding"]) := by
  simp [fileChunk, isfile, read_file_content, h]

theorem fileChunk_text (fs : FS) (file content : String) (add_headers : Bool)
    (h : fs file = PyFile.text content) :
    fileChunk fs add_headers file
      = ((if add_headers then separatorLine ++ headerFor file else "") ++ content ++
          (if !content.data.isEmpty && !pyEndsWith content "\n" then "\n" else ""), []) := by
  simp [fileChunk, isfile, read_file_content, h]

theorem concatBody_all_binary (fs : FS) (add_headers : Bool) (files : List String)
    (h : ∀ f ∈ files, fs f = PyFile.binary) : (concatBody fs add_headers files).1 = "" := by
  induction files with
  | nil => rfl
  | cons f rest ih =>
    rw [concatBody]
    rw [fileChunk_binary fs add_headers f (h f (List.mem_cons_self f rest))]
    rw [ih (fun g hg => h g (List.mem_cons_of_mem f hg))]
    rfl

theorem mem_unique_files {a : String} {l : List String} :
    a ∈ unique_files l ↔ a ∈ l := by
  rw [unique_files, mem_dedupLoop]
  simp

theorem unique_files_ne_nil {l : List String} (h : l ≠ []) : unique_files l ≠ [] := by
  cases l with
  | nil => exact absurd rfl h
  | cons f rest =>
    rw [unique_files, dedupLoop]
    simp

theorem isEmpty_eq_false_of_ne_nil {α : Type} {l : List α} (h : l ≠ []) :
    l.isEmpty = false := by
  cases hc : l.isEmpty
  · rfl
  · exact absurd (List.isEmpty_iff.mp hc) h

theorem filterMap_filter_of_none {α β : Type} (fn : α → Option β) (kp : α → Bool)
    (h : ∀ a, kp a = false → fn a = none) (l : List α) :
    l.filterMap fn = (l.filter kp).filterMap fn := by
  induction l with
  | nil => rfl
  | cons x xs ih =>
    cases hx : kp x
    · rw [List.filterMap_cons, h x hx, List.filter_cons, hx]
      simp only [Bool.false_eq_true, if_false]
      exact ih
    · rw [List.filter_cons, hx, if_pos rfl, List.filterMap_cons, List.filterMap_cons, ih]

/-! Concrete fixtures used to instantiate the claim theorems. -/

/-- A filesystem holding a single file that is not decodable as text. -/
def fsBin : FS := fun p => if p = "bin.dat" then PyFile.binary else PyFile.absent

/-- A filesystem with `a.txt` containing `hello` (no trailing newline) and
`b.txt` containing `world` with a trailing newline. -/
def fsHello : FS := fun p =>
  if p = "a.txt" then PyFile.text "hello"
  else if p = "b.txt" then PyFile.text "world\n" else PyFile.absent

/-- A filesystem with no files at all. -/
def fsEmpty : FS := fun _ => PyFile.absent

/-- A glob oracle that matches nothing. -/
def glob0 : String → List String := fun _ => []

/-- A small directory tree: two visible root files, one hidden root file,
a visible subdirectory with one file, and a hidden subdirectory. -/
def t0 : FTree :=
  .node ["b.txt", "a.txt", ".hidden"]
    (.cons "sub" (.node ["c.txt"] .nil)
      (.cons ".git" (.node ["secret"] .nil) .nil))

/-! Claim theorems. -/

/-- C1, counterexample to the claim as stated: for a file whose content
cannot be decoded, the claim asserts the output contains an orphaned
header written before the decode failure was discovered.  On the code,
concatenating the single undecodable file `bin.dat` with headers enabled
produces empty output and only the warning: no `FILE: bin.dat` header
occurs anywhere in the output. -/
theorem claim1_counterexample :
    fsBin "bin.dat" = PyFile.binary ∧
    concatBody fsBin true ["bin.dat"]
      = ("", ["Warning: bin.dat is not a text file or uses an unsupported encoding"]) ∧
    strIn "FILE: bin.dat" (concatBody fsBin true ["bin.dat"]).1 = false := by
  refine ⟨rfl, by decide, by decide⟩

/-- C1, amended: in the Concatenator with headers enabled, a file whose
contents cannot be decoded as text produces a warning and is skipped
entirely; the content is read before any header is written, so neither
the header block nor the body for that file appears in the output (no
orphaned header). -/
theorem claim1_decode_failure_skips_header_and_content
    (fs : FS) (add_headers : Bool) (file : String) (h : fs file = PyFile.binary) :
    fileChunk fs add_headers file
      = ("", ["Warning: " ++ file ++ " is not a text file or uses an unsupported encoding"]) :=
  fileChunk_binary fs add_headers file h

/-- Witness for C1 at the concrete input `bin.dat`. -/
theorem claim1_witness :
    fsBin "bin.dat" = PyFile.binary ∧
    fileChunk fsBin true "bin.dat"
      = ("", ["Warning: " ++ "bin.dat" ++ " is not a text file or uses an unsupported encoding"]) :=
  ⟨rfl, claim1_decode_failure_skips_header_and_content fsBin true "bin.dat" rfl⟩

/-- C2: with `add_headers` enabled, the block written immediately before
each decoded file's content is the separator (a newline ending the
previous line, then a line of exactly 80 `=` characters), then the line
`FILE: <path>`, then a line of `-` characters whose length is the length
of the path plus 6. -/
theorem claim2_header_block_format (fs : FS) (file content : String)
    (h : fs file = PyFile.text content) :
    fileChunk fs true file
      = (separatorLine ++ headerFor file ++ content ++
          (if !content.data.isEmpty && !pyEndsWith content "\n" then "\n" else ""), []) ∧
    separatorLine = "\n" ++ pyRepeat '=' 80 ++ "\n" ∧
    (pyRepeat '=' 80).length = 80 ∧
    (∀ c ∈ (pyRepeat '=' 80).data, c = '=') ∧
    headerFor file = "FILE: " ++ file ++ "\n" ++ pyRepeat '-' (file.length + 6) ++ "\n" ∧
    (pyRepeat '-' (file.length + 6)).length = file.length + 6 ∧
    ∀ c ∈ (pyRepeat '-' (file.length + 6)).data, c = '-' := by
  refine ⟨?_, rfl, List.length_replicate 80 '=', ?_, rfl,
    List.length_replicate (file.length + 6) '-', ?_⟩
  · rw [fileChunk_text fs file content true h]
    simp
  · intro c hc
    exact List.eq_of_mem_replicate hc
  · intro c hc
    exact List.eq_of_mem_replicate hc

/-- Witness for C2 at the concrete file `a.txt` containing `hello`. -/
theorem claim2_witness :
    fsHello "a.txt" = PyFile.text "hello" ∧
    (pyRepeat '=' 80).length = 80 ∧
    fileChunk fsHello true "a.txt"
      = (separatorLine ++ headerFor "a.txt" ++ "hello" ++ "\n", []) := by
  have h := claim2_header_block_format fsHello "a.txt" "hello" rfl
  exact ⟨rfl, h.2.2.1, h.1.trans (by decide)⟩

/-- C4: every successfully decoded file contributes its content verbatim
(after the optional header), followed by a single newline exactly when
the content is non-empty and does not already end with a newline; in
particular, concatenating `a.txt` = `hello` and `b.txt` = `world\n` with
headers disabled produces exactly `hello\nworld\n`. -/
theorem claim4_content_verbatim_with_newline_policy :
    (∀ (fs : FS) (file content : String) (add_headers : Bool),
       fs file = PyFile.text content →
       fileChunk fs add_headers file
         = ((if add_headers then separatorLine ++ headerFor file else "") ++ content ++
             (if !content.data.isEmpty && !pyEndsWith content "\n" then "\n" else ""), [])) ∧
    concatBody fsHello false ["a.txt", "b.txt"] = ("hello\nworld\n", []) := by
  constructor
  · intro fs file content add_headers h
    exact fileChunk_text fs file content add_headers h
  · decide

/-- Witness for C4 at the concrete file `a.txt` containing `hello`. -/
theorem claim4_witness :
    fsHello "a.txt" = PyFile.text "hello" ∧
    fileChunk fsHello false "a.txt" = ("hello\n", []) := by
  have h := claim4_content_verbatim_with_newline_policy.1 fsHello "a.txt" "hello" false rfl
  exact ⟨rfl, h.trans (by decide)⟩

/-- C3: when the resolved candidate list is non-empty but, after
deduplication and existence filtering, no file survives, the
Concatenator's main reports the error, exits with status 1, and never
opens the output file (the written-output component stays `none`). -/
theorem claim3_empty_filtered_set_exits_without_output
    (fs : FS) (globFn : String → List String) (writeOk : Bool) (args : ConcatArgs)
    (fromList : List String)
    (hne : fromList ++ (expand_file_patterns globFn args.files).1 ≠ [])
    (hall : ∀ f ∈ fromList ++ (expand_file_patterns globFn args.files).1,
      isfile fs f = false) :
    (mainAfterList fs globFn writeOk args fromList).1 = 1 ∧
    (mainAfterList fs globFn writeOk args fromList).2.1 = none ∧
    "Error: No valid files to concatenate."
      ∈ (mainAfterList fs globFn writeOk args fromList).2.2 := by
  have h1 : (fromList ++ (expand_file_patterns globFn args.files).1).isEmpty = false :=
    isEmpty_eq_false_of_ne_nil hne
  have h2 : (unique_files (fromList ++ (expand_file_patterns globFn args.files).1)).filter
      (fun f => isfile fs f) = [] := by
    rw [List.filter_eq_nil_iff]
    intro a ha
    rw [hall a (mem_unique_files.mp ha)]
    simp
  rw [mainAfterList]
  simp only [h1, Bool.false_eq_true, if_false, h2, List.isEmpty_nil, if_true]
  simp

/-- C9: if every resolved candidate exists but none can be decoded as
text, the write phase skips them all, yet `concatenate_files` reports
success: the Concatenator's main exits with status 0 and the output file
is created empty. -/
theorem claim9_success_with_all_skipped
    (fs : FS) (globFn : String → List String) (args : ConcatArgs)
    (fromList : List String)
    (hne : fromList ++ (expand_file_patterns globFn args.files).1 ≠ [])
    (hbin : ∀ f ∈ fromList ++ (expand_file_patterns globFn args.files).1,
      fs f = PyFile.binary) :
    (mainAfterList fs globFn true args fromList).1 = 0 ∧
    (mainAfterList fs globFn true args fromList).2.1 = some "" := by
  have h1 : (fromList ++ (expand_file_patterns globFn args.files).1).isEmpty = false :=
    isEmpty_eq_false_of_ne_nil hne
  have h2 : (unique_files (fromList ++ (expand_file_patterns globFn args.files).1)).filter
        (fun f => isfile fs f)
      = unique_files (fromList ++ (expand_file_patterns globFn args.files).1) := by
    rw [List.filter_eq_self]
    intro a ha
    rw [isfile, hbin a (mem_unique_files.mp ha)]
  have h3 : (unique_files (fromList ++ (expand_file_patterns globFn args.files).1)).isEmpty
      = false :=
    isEmpty_eq_false_of_ne_nil (unique_files_ne_nil hne)
  have h4 : (concatBody fs (!args.no_headers)
      (unique_files (fromList ++ (expand_file_patterns globFn args.files).1))).1 = "" :=
    concatBody_all_binary fs (!args.no_headers) _
      (fun f hf => hbin f (mem_unique_files.mp hf))
  rw [mainAfterList]
  simp only [h1, Bool.false_eq_true, if_false, h2, h3, concatenate_files, if_true]
  rw [h4]
  simp

/-- Witness for C3: a single named file that does not exist. -/
theorem claim3_witness :
    (([] : List String) ++ (expand_file_patterns glob0 ["a.txt"]).1 ≠ []) ∧
    (mainAfterList fsEmpty glob0 true ⟨["a.txt"], "llm_context.txt", false, none⟩ []).1 = 1 ∧
    (mainAfterList fsEmpty glob0 true ⟨["a.txt"], "llm_context.txt", false, none⟩ []).2.1
      = none := by
  have h := claim3_empty_filtered_set_exits_without_output fsEmpty glob0 true
    ⟨["a.txt"], "llm_context.txt", false, none⟩ [] (by decide) (by decide)
  exact ⟨by decide, h.1, h.2.1⟩

/-- Witness for C9: a single file that exists but cannot be decoded. -/
theorem claim9_witness :
    (([] : List String) ++ (expand_file_patterns glob0 ["bin.dat"]).1 ≠ []) ∧
    (mainAfterList fsBin glob0 true ⟨["bin.dat"], "llm_context.txt", false, none⟩ []).1 = 0 ∧
    (mainAfterList fsBin glob0 true ⟨["bin.dat"], "llm_context.txt", false, none⟩ []).2.1
      = some "" := by
  have h := claim9_success_with_all_skipped fsBin glob0
    ⟨["bin.dat"], "llm_context.txt", false, none⟩ [] (by decide) (by decide)
  exact ⟨by decide, h.1, h.2⟩

/-- C5: in recursive mode with hidden entries excluded and no exclusion
patterns, the Lister returns exactly the sorted list of non-hidden files
at every depth of a well-formed tree (hidden subdirectories contributing
zero entries), each path relative to the root as described by the
spec-side collection `specFilesTree`, and no returned path carries a
leading `./` (a root file is listed by its bare name). -/
theorem claim5_recursive_listing_matches_spec (t : FTree) (hwf : wfTree t = true) :
    list_files_recursive t [] false = sortStrings (specFilesTree "" t) ∧
    ∀ p ∈ list_files_recursive t [] false, pyStartsWith p "./" = false := by
  constructor
  · rw [list_files_recursive, walkTree_eq_spec t "." hwf (Or.inl rfl), specMark_dot]
  · intro p hp
    rw [list_files_recursive] at hp
    have hp2 : p ∈ walkTree false [] "." t := ((perm_sortStrings _).mem_iff).mp hp
    exact pyStartsWith_dotSlash_of_head (walkTree_head_ne t "." hwf (Or.inl rfl) p hp2)

/-- Witness for C5 at the concrete tree `t0`. -/
theorem claim5_witness :
    wfTree t0 = true ∧
    list_files_recursive t0 [] false = sortStrings (specFilesTree "" t0) :=
  ⟨by decide, (claim5_recursive_listing_matches_spec t0 (by decide)).1⟩

/-- C6: the Concatenator's deduplication returns the input with every
repeated path removed except its first occurrence: it equals the
spec-side `firstOccurrences`, is a subsequence of the input (so the
relative order of the survivors is preserved), has no duplicates, keeps
exactly the input's members, and on `[a.txt, a.txt]` yields one
`a.txt`. -/
theorem claim6_dedup_first_occurrence :
    (∀ l : List String, unique_files l = firstOccurrences l) ∧
    (∀ l : List String, (unique_files l).Sublist l) ∧
    (∀ l : List String, (unique_files l).Nodup) ∧
    (∀ (l : List String) (a : String), a ∈ unique_files l ↔ a ∈ l) ∧
    unique_files ["a.txt", "a.txt"] = ["a.txt"] :=
  ⟨unique_files_eq_firstOccurrences,
   fun l => dedupLoop_sublist [] l,
   fun l => nodup_dedupLoop [] l,
   fun _ _ => mem_unique_files,
   by decide⟩

/-- C7: the Lister's exclusion test holds exactly when some supplied
pattern occurs as a plain substring of the file's base name; a file
returned by the non-recursive listing is never excluded; in recursive
mode, excluded file names of a directory contribute nothing; and
concretely pattern `pyc` excludes `cache.pyc` but not `cache.txt`. -/
theorem claim7_exclusion_is_substring_on_basename :
    (∀ (pats : List String) (name : String),
       excludedName pats name = true ↔ ∃ p ∈ pats, p.data <:+: name.data) ∧
    (∀ (entries : List DirEntry) (pats : List String) (hid : Bool) (f : String),
       f ∈ list_files_nonrecursive entries pats hid → excludedName pats f = false) ∧
    (∀ (hid : Bool) (pats : List String) (rel : String) (files : List String)
       (dirs : FForest),
       walkTree hid pats rel (FTree.node files dirs)
         = walkTree hid pats rel
             (FTree.node (files.filter (fun f => !excludedName pats f)) dirs)) ∧
    excludedName ["pyc"] "cache.pyc" = true ∧
    excludedName ["pyc"] "cache.txt" = false := by
  refine ⟨?_, ?_, ?_, by decide, by decide⟩
  · intro pats name
    simp only [excludedName, List.any_eq_true, strIn, containsSub_iff]
  · intro entries pats hid f hf
    have hf2 : f ∈ listNonRecursive entries pats hid :=
      ((perm_sortStrings _).mem_iff).mp hf
    obtain ⟨e, he, hsome⟩ := List.mem_filterMap.mp hf2
    cases e with
    | dirEntry d => simp at hsome
    | fileEntry item =>
      have hsome2 : (if (!hid && pyStartsWith item ".") = true then none
          else if excludedName pats item = true then none else some item) = some f := hsome
      by_cases h1 : (!hid && pyStartsWith item ".") = true
      · rw [if_pos h1] at hsome2; cases hsome2
      · rw [if_neg h1] at hsome2
        by_cases h2 : excludedName pats item = true
        · rw [if_pos h2] at hsome2; cases hsome2
        · rw [if_neg h2] at hsome2
          have hif : item = f := by injection hsome2
          rw [← hif]
          simpa using h2
  · intro hid pats rel files dirs
    rw [walkTree, walkTree]
    congr 1
    apply filterMap_filter_of_none
    intro f hkp
    have hx : excludedName pats f = true := by simpa using hkp
    by_cases h1 : (!hid && pyStartsWith f ".") = true
    · rw [if_pos h1]
    · rw [if_neg h1, if_pos hx]

/-- Witness for C7: `cache.txt` survives the listing against pattern
`pyc` and is indeed not excluded. -/
theorem claim7_witness :
    ("cache.txt" ∈ list_files_nonrecursive
      [DirEntry.fileEntry "cache.pyc", DirEntry.fileEntry "cache.txt"] ["pyc"] false) ∧
    excludedName ["pyc"] "cache.txt" = false :=
  ⟨by decide,
   claim7_exclusion_is_substring_on_basename.2.1
     [DirEntry.fileEntry "cache.pyc", DirEntry.fileEntry "cache.txt"] ["pyc"] false
     "cache.txt" (by decide)⟩

/-- C8: in both modes the Lister's result is the single sort, applied
once after the full collection, of the unsorted traversal output: the
returned list is lexicographically sorted and is a permutation of the
collected (unsorted) entries. -/
theorem claim8_single_final_sort :
    (∀ (t : FTree) (exc : List String) (hid : Bool),
       list_files_recursive t exc hid = sortStrings (walkTree hid exc "." t) ∧
       List.Sorted strLe (list_files_recursive t exc hid) ∧
       (list_files_recursive t exc hid).Perm (walkTree hid exc "." t)) ∧
    (∀ (entries : List DirEntry) (exc : List String) (hid : Bool),
       list_files_nonrecursive entries exc hid
         = sortStrings (listNonRecursive entries exc hid) ∧
       List.Sorted strLe (list_files_nonrecursive entries exc hid) ∧
       (list_files_nonrecursive entries exc hid).Perm
         (listNonRecursive entries exc hid)) := by
  constructor
  · intro t exc hid
    exact ⟨rfl, sorted_sortStrings _, perm_sortStrings _⟩
  · intro entries exc hid
    exact ⟨rfl, sorted_sortStrings _, perm_sortStrings _⟩

/-- C10: when the Lister is given an output path, the listing is
non-empty, and opening or writing the output file fails, the error is
reported to stderr and the process exits with status 1. -/
theorem claim10_lister_output_write_failure_exits_1
    (t : FTree) (entries : List DirEntry) (recursive include_hidden : Bool)
    (exclude : List String) (out : String)
    (hfiles : (if recursive then list_files_recursive t exclude include_hidden
               else list_files_nonrecursive entries exclude include_hidden) ≠ []) :
    mainLister true false t entries recursive include_hidden exclude (some out)
      = (1, ["Error writing to " ++ out], none) := by
  have h1 : (if recursive then list_files_recursive t exclude include_hidden
      else list_files_nonrecursive entries exclude include_hidden).isEmpty = false :=
    isEmpty_eq_false_of_ne_nil hfiles
  rw [mainLister]
  simp only [Bool.not_true, Bool.false_eq_true, if_false, h1,
    write_listed_files_to_file, if_true]

/-- Witness for C10 at a one-file directory and output `files.txt`. -/
theorem claim10_witness :
    ((if false then list_files_recursive (FTree.node [] FForest.nil) [] false
      else list_files_nonrecursive [DirEntry.fileEntry "a"] [] false) ≠ []) ∧
    mainLister true false (FTree.node [] FForest.nil) [DirEntry.fileEntry "a"]
      false false [] (some "files.txt")
      = (1, ["Error writing to " ++ "files.txt"], none) :=
  ⟨by decide,
   claim10_lister_output_write_failure_exits_1 (FTree.node [] FForest.nil)
     [DirEntry.fileEntry "a"] false false [] "files.txt" (by decide)⟩
